import Mathlib

/- Shallow embedding of the pg-multiverse core (TypeScript) in Lean 4.

   Components embedded, each translated from the repository source:
   * LoadBalancer (src/cluster/LoadBalancer.ts): round_robin replica selection.
   * DistributedCache (src/cluster/DistributedCache.ts): get / set / evictLRU over
     an insertion-ordered key store, mirroring the semantics of a JS Map.
   * ClusterManager (src/cluster/ClusterManager.ts): getConnection routing and
     pool choice, plus the activeConnections accounting of executeQuery.
   * DistributedTransaction (src/cluster/DistributedTransaction.ts): commit with
     two-phase commit, execute, and the transaction metrics.
   * MigrationManager (migrations manager source): rollback planning and the
     rollback execution loop.

   Time stamps are naturals (milliseconds), durations are rationals where the
   source uses JS floating point arithmetic, and JS exceptions are Except /
   flagged results. -/

namespace PgMultiverse

/-! ## LoadBalancer (src/cluster/LoadBalancer.ts) -/

inductive LBError
  | noReplicas
deriving DecidableEq, Repr

/-- roundRobinSelect (LoadBalancer.ts lines 54-59): returns the chosen index
`cursor % len` and the updated cursor `(cursor + 1) % len`. -/
def roundRobinSelect (len cursor : Nat) : Nat × Nat :=
  (cursor % len, (cursor + 1) % len)

/-- selectReplica (LoadBalancer.ts lines 13-41) restricted to the round_robin
strategy: an empty replica list is an error, a single replica short-circuits to
index 0 without advancing the cursor, otherwise roundRobinSelect runs. -/
def selectReplica (len cursor : Nat) : Except LBError (Nat × Nat) :=
  if len = 0 then .error .noReplicas
  else if len = 1 then .ok (0, cursor)
  else .ok (roundRobinSelect len cursor)

/-- A run of consecutive selectReplica calls under round_robin: the list of
returned indices, threading the internal cursor through the calls. -/
def selectReplicaRun (len : Nat) : Nat → Nat → List Nat
  | _, 0 => []
  | cursor, n + 1 =>
    match selectReplica len cursor with
    | .error _ => []
    | .ok (i, cursor') => i :: selectReplicaRun len cursor' n

/-! ## DistributedCache (src/cluster/DistributedCache.ts) -/

/-- CacheEntry (types/index.ts): `ttl` is the absolute expiry instant
(`now + ttl` at set time), as in the source field of the same name. -/
structure CacheEntry (α : Type) where
  value : α
  ttl : Nat
  createdAt : Nat
  accessCount : Nat
  lastAccessed : Nat
  size : Nat
  tags : List String := []
  schema : Option String := none
  cluster : Option String := none
deriving DecidableEq, Repr

/-- Eviction strategies of CacheConfig (types/index.ts line 72). -/
inductive EvictionStrategy
  | lru | lfu | fifo
deriving DecidableEq, Repr

/-- The cache configuration fields relevant to get / set (defaults from the
DistributedCache constructor). -/
structure CacheConfig where
  maxSize : Nat := 1000
  ttl : Nat := 300000
  strategy : EvictionStrategy := .lru
deriving DecidableEq, Repr

/-- The cache store: an insertion-ordered association list, mirroring a JS Map
(`Map.prototype.set` keeps the original position of an existing key,
iteration is in insertion order). -/
abbrev CacheStore (α : Type) := List (String × CacheEntry α)

/-- JS `Map.set`: replace in place when the key exists, else append. -/
def cacheMapSet {α : Type} (key : String) (e : CacheEntry α) :
    CacheStore α → CacheStore α
  | [] => [(key, e)]
  | kv :: rest =>
    if kv.1 = key then (key, e) :: rest else kv :: cacheMapSet key e rest

/-- JS `Map.delete`: remove the entry of the key, if present. -/
def cacheMapDelete {α : Type} (key : String) : CacheStore α → CacheStore α
  | [] => []
  | kv :: rest => if kv.1 = key then rest else kv :: cacheMapDelete key rest

/-- isExpired (DistributedCache.ts lines 255-257): `Date.now() > entry.ttl`. -/
def isExpired {α : Type} (now : Nat) (e : CacheEntry α) : Bool :=
  decide (e.ttl < now)

/-- One step of the evictLRU scan: keep the entry seen so far with the
smallest lastAccessed (strict comparison, so the earliest entry wins ties). -/
def lruStep {α : Type} (acc : Option (String × CacheEntry α))
    (kv : String × CacheEntry α) : Option (String × CacheEntry α) :=
  match acc with
  | none => some kv
  | some best =>
    if kv.2.lastAccessed < best.2.lastAccessed then some kv else some best

/-- The entry evictLRU (DistributedCache.ts lines 237-253) picks: the first
entry, in insertion order, with the strictly smallest lastAccessed. -/
def lruVictim {α : Type} (c : CacheStore α) : Option (String × CacheEntry α) :=
  c.foldl lruStep none

/-- evictLRU (DistributedCache.ts lines 237-253): delete the victim, if any. -/
def evictLRU {α : Type} (c : CacheStore α) : CacheStore α :=
  match lruVictim c with
  | none => c
  | some kv => cacheMapDelete kv.1 c

/-- get (DistributedCache.ts lines 51-80): absent key is a miss; an expired
entry is deleted and is a miss; otherwise the entry's accessCount is
incremented, lastAccessed is set to now, and the value is returned.
The result pairs the returned value with the updated store. -/
def cacheGet {α : Type} (now : Nat) (key : String) (c : CacheStore α) :
    Option α × CacheStore α :=
  match c.lookup key with
  | none => (none, c)
  | some e =>
    if isExpired now e then (none, cacheMapDelete key c)
    else
      (some e.value,
       cacheMapSet key
         { e with accessCount := e.accessCount + 1, lastAccessed := now } c)

/-- set (DistributedCache.ts lines 82-129): builds a fresh entry with absolute
expiry `now + ttl` (the caller ttl falls back to the configured ttl when
absent or zero, the JS `options.ttl || this.config.ttl`), evicts via evictLRU
whenever `size ≥ maxSize` — the configured strategy is never consulted — and
then inserts. `calcSize` abstracts calculateSize; compression is disabled by
default and the source compress is the identity, so it is omitted. -/
def freshEntry {α : Type} (cfg : CacheConfig) (calcSize : α → Nat) (now : Nat)
    (value : α) (ttlOpt : Option Nat) (tags : List String)
    (schema cluster : Option String) : CacheEntry α :=
  let ttl : Nat :=
    match ttlOpt with
    | some t => if t = 0 then cfg.ttl else t
    | none => cfg.ttl
  { value := value, ttl := now + ttl, createdAt := now, accessCount := 0,
    lastAccessed := now, size := calcSize value, tags := tags,
    schema := schema, cluster := cluster }

/-- set (DistributedCache.ts lines 82-129), continued: evict via evictLRU
whenever `size ≥ maxSize`, then insert the fresh entry. -/
def cacheSet {α : Type} (cfg : CacheConfig) (calcSize : α → Nat) (now : Nat)
    (key : String) (value : α) (ttlOpt : Option Nat) (tags : List String)
    (schema cluster : Option String) (c : CacheStore α) : CacheStore α :=
  let entry := freshEntry cfg calcSize now value ttlOpt tags schema cluster
  let c1 := if cfg.maxSize ≤ c.length then evictLRU c else c
  cacheMapSet key entry c1

/-! ## ClusterManager (src/cluster/ClusterManager.ts) -/

/-- The status field of ClusterInfo (ClusterManager.ts line 51). -/
inductive ClusterStatus
  | initializing | active | down | maintenance
deriving DecidableEq, Repr

/-- The slice of ClusterInfo that getConnection reads: whether pools.primary is
set, how many replica pools exist, and the status. -/
structure ClusterInfo where
  hasPrimary : Bool
  replicaCount : Nat
  status : ClusterStatus
deriving DecidableEq, Repr

/-- OperationType (types/index.ts line 118). -/
inductive OperationType
  | read | write
deriving DecidableEq, Repr

/-- ConsistencyLevel (types/index.ts line 116). -/
inductive ConsistencyLevel
  | eventual | strong
deriving DecidableEq, Repr

/-- The QueryOptions fields getConnection destructures, with the source's
defaults (operation = read, consistencyLevel = eventual). -/
structure QueryOptions where
  schema : Option String := none
  operation : OperationType := .read
  consistencyLevel : ConsistencyLevel := .eventual
  clusterId : Option String := none
deriving DecidableEq, Repr

/-- The ClusterManager state getConnection reads: the insertion-ordered cluster
registry, the schema to cluster map, the initialized flag, and the
LoadBalancer round-robin cursor. -/
structure ManagerState where
  isInitialized : Bool := true
  clusters : List (String × ClusterInfo) := []
  schemaClusterMap : List (String × String) := []
  lbCursor : Nat := 0
deriving DecidableEq, Repr

inductive PoolChoice
  | primaryPool
  | replicaPool (idx : Nat)
deriving DecidableEq, Repr

inductive ConnError
  | notInitialized
  | noClusterForSchema (schema : String)
  | noActiveClusters
  | clusterNotFound (id : String)
  | noSuitablePool (id : String)
deriving DecidableEq, Repr

/-- Outcome of getConnection: the cluster routed to, the pool the connection
came from, and the LoadBalancer cursor after the call. -/
structure ConnOutcome where
  clusterId : String
  pool : PoolChoice
  lbCursor : Nat
deriving DecidableEq, Repr

/-- The source's private shouldUseReplica (ClusterManager.ts lines 627-632):
false on strong consistency, false on a write, true otherwise. -/
def shouldUseReplica (operation : OperationType)
    (consistencyLevel : ConsistencyLevel) : Bool :=
  if consistencyLevel = .strong then false
  else if operation = .write then false
  else true

/-- Target-cluster resolution in getConnection (ClusterManager.ts lines
190-211): the caller's clusterId wins; else the schema map (unknown schema is
an error); else the first cluster whose status is active (none is an error).
Cluster status is only consulted on that last, default path. -/
def resolveTarget (st : ManagerState) (opts : QueryOptions) :
    Except ConnError String :=
  match opts.clusterId with
  | some cid => .ok cid
  | none =>
    match opts.schema with
    | some s =>
      match st.schemaClusterMap.lookup s with
      | some cid => .ok cid
      | none => .error (.noClusterForSchema s)
    | none =>
      match (st.clusters.filter (fun kv => kv.2.status = .active)).head? with
      | some kv => .ok kv.1
      | none => .error .noActiveClusters

/-- Pool choice in getConnection (ClusterManager.ts lines 219-233): a replica
pool, at the index the LoadBalancer picks, when shouldUseReplica holds and the
cluster has replicas; else the primary pool when present; else an error. -/
def selectPool (cluster : ClusterInfo) (cid : String) (opts : QueryOptions)
    (cursor : Nat) : Except ConnError (PoolChoice × Nat) :=
  if shouldUseReplica opts.operation opts.consistencyLevel
      ∧ 0 < cluster.replicaCount then
    match selectReplica cluster.replicaCount cursor with
    | .ok (i, cursor') => .ok (.replicaPool i, cursor')
    | .error _ => .error (.noSuitablePool cid)
  else if cluster.hasPrimary then .ok (.primaryPool, cursor)
  else .error (.noSuitablePool cid)

/-- getConnection (ClusterManager.ts lines 178-251) as a function of the
manager state and options: resolve the target cluster, look it up, choose the
pool. Driver-level acquisition is out of scope (external collaborator). -/
def getConnection (st : ManagerState) (opts : QueryOptions) :
    Except ConnError ConnOutcome :=
  if st.isInitialized then
    match resolveTarget st opts with
    | .error e => .error e
    | .ok cid =>
      match st.clusters.lookup cid with
      | none => .error (.clusterNotFound cid)
      | some cluster =>
        match selectPool cluster cid opts st.lbCursor with
        | .error e => .error e
        | .ok (pool, cursor') => .ok ⟨cid, pool, cursor'⟩
  else .error .notInitialized

/-- Rewrites a cluster's status with `f`, keeping its pools. -/
def setStatus (f : ClusterStatus → ClusterStatus) (cl : ClusterInfo) :
    ClusterInfo :=
  ⟨cl.hasPrimary, cl.replicaCount, f cl.status⟩

/-- Rewrites every cluster's status with `f`, leaving everything else of the
manager state unchanged: used to state that a code path never reads status. -/
def mapStatuses (f : ClusterStatus → ClusterStatus) (st : ManagerState) :
    ManagerState :=
  { st with clusters := st.clusters.map (fun kv => (kv.1, setStatus f kv.2)) }

/-- The shared counters of ClusterManager.stats that executeQuery touches.
activeConnections is an integer: the source never guards the final decrement,
so the counter can go below zero. -/
structure CMStats where
  totalQueries : Nat := 0
  failedQueries : Nat := 0
  activeConnections : Int := 0
deriving DecidableEq, Repr

/-- The increment getConnection performs on success (ClusterManager.ts
line 244). -/
def acquireStats (s : CMStats) : CMStats :=
  { s with activeConnections := s.activeConnections + 1 }

/-- The release installed by the private wrapConnection (ClusterManager.ts
lines 634-644): decrement clamped at zero. -/
def wrappedReleaseStats (s : CMStats) : CMStats :=
  { s with activeConnections := max 0 (s.activeConnections - 1) }

/-- The effect of one executeQuery call (ClusterManager.ts lines 256-290) on
the shared stats, given that getConnection succeeded: the getConnection
increment, the query counter (totalQueries on success, failedQueries on
error), then the finally block, which calls the wrapped release (clamped
decrement) and afterwards decrements activeConnections again, unguarded. -/
def executeQueryStats (s : CMStats) (success : Bool) : CMStats :=
  let s1 := acquireStats s
  let s2 :=
    if success then { s1 with totalQueries := s1.totalQueries + 1 }
    else { s1 with failedQueries := s1.failedQueries + 1 }
  let s3 := wrappedReleaseStats s2
  { s3 with activeConnections := s3.activeConnections - 1 }

/-! ## DistributedTransaction (src/cluster/DistributedTransaction.ts) -/

/-- Transaction states (types/index.ts line 233). -/
inductive TxState
  | preparing | prepared | committing | committed | aborting | aborted
deriving DecidableEq, Repr

/-- The SQL control commands a participant connection can observe. -/
inductive TxCmd
  | prepareTx | commitPrepared | rollbackPrepared | rollbackCmd | commitCmd
deriving DecidableEq, Repr

/-- One participant connection of a distributed transaction, with the outcomes
the driver would report for each control command on it. -/
structure Participant where
  clusterId : String
  prepareOk : Bool := true
  commitPreparedOk : Bool := true
  commitOk : Bool := true
deriving DecidableEq, Repr

/-- twoPhaseCommit (DistributedTransaction.ts lines 247-292): phase 1 issues
PREPARE TRANSACTION on every connection; if any fails, ROLLBACK PREPARED is
issued on each successfully prepared connection and the phase fails. Phase 2
issues COMMIT PREPARED on every connection; partial failures there are only
logged, the method still returns normally. Returns the per-connection command
trace and whether the method returned without throwing. -/
def twoPhaseCommit (parts : List Participant) : List (String × TxCmd) × Bool :=
  let prepareTrace := parts.map (fun p => (p.clusterId, TxCmd.prepareTx))
  let failedPrepares := parts.filter (fun p => !p.prepareOk)
  if failedPrepares.isEmpty then
    (prepareTrace ++ parts.map (fun p => (p.clusterId, TxCmd.commitPrepared)),
     true)
  else
    (prepareTrace ++
       (parts.filter (fun p => p.prepareOk)).map
         (fun p => (p.clusterId, TxCmd.rollbackPrepared)),
     false)

/-- singleClusterCommit (DistributedTransaction.ts lines 294-297): plain COMMIT
on the first connection; an empty connection map crashes, which the caller
observes as a thrown error. -/
def singleClusterCommit (parts : List Participant) :
    List (String × TxCmd) × Bool :=
  match parts with
  | [] => ([], false)
  | p :: _ => ([(p.clusterId, TxCmd.commitCmd)], p.commitOk)

/-- Result of commit: the command trace over the participants, the final
transaction state, and whether commit re-raised an error. -/
structure CommitResult where
  trace : List (String × TxCmd)
  finalState : TxState
  isError : Bool
deriving DecidableEq, Repr

/-- commit (DistributedTransaction.ts lines 153-198): two-phase commit when
more than one cluster is involved, else a single COMMIT. On success the state
becomes committed; on any error the state becomes aborted, rollbackConnections
issues plain ROLLBACK on every connection, and the error is re-raised. -/
def commitTx (parts : List Participant) : CommitResult :=
  let phase :=
    if 1 < parts.length then twoPhaseCommit parts
    else singleClusterCommit parts
  if phase.2 then ⟨phase.1, .committed, false⟩
  else
    ⟨phase.1 ++ parts.map (fun p => (p.clusterId, TxCmd.rollbackCmd)),
     .aborted, true⟩

/-- TransactionMetrics (types/index.ts lines 329-336). Durations use rationals
where the source uses JS numbers. -/
structure TransactionMetrics where
  total : Nat := 0
  active : Int := 0
  committed : Nat := 0
  aborted : Nat := 0
  avgDuration : ℚ := 0
  distributed : Nat := 0
deriving DecidableEq, Repr

/-- updateAvgDuration (DistributedTransaction.ts lines 358-366), computed over
the committed and aborted counters as they stand when it is called. -/
def updateAvgDuration (m : TransactionMetrics) (duration : ℚ) : ℚ :=
  let t : Nat := m.committed + m.aborted
  if t = 0 then duration
  else (m.avgDuration * ((t : ℚ) - 1) + duration) / (t : ℚ)

/-- The metrics-relevant lifecycle events of a transaction: begin (with whether
it spans more than one cluster), a successful commit, a commit that failed and
aborted, and an explicit rollback; terminating events carry the duration the
source measures. -/
inductive TxEvent
  | beginTx (distributed : Bool)
  | commitOk (duration : ℚ)
  | commitFailed (duration : ℚ)
  | rollbackTx (duration : ℚ)
deriving DecidableEq, Repr

/-- How each event updates the metrics, following begin (lines 92-96), commit
(lines 162-197) and rollback (lines 200-226): only the successful-commit path
calls updateAvgDuration, and it does so after incrementing committed. -/
def applyTxEvent (m : TransactionMetrics) : TxEvent → TransactionMetrics
  | .beginTx d =>
    { m with total := m.total + 1, active := m.active + 1,
             distributed := if d then m.distributed + 1 else m.distributed }
  | .commitOk duration =>
    let m1 := { m with active := m.active - 1, committed := m.committed + 1 }
    { m1 with avgDuration := updateAvgDuration m1 duration }
  | .commitFailed _ =>
    { m with active := m.active - 1, aborted := m.aborted + 1 }
  | .rollbackTx _ =>
    { m with active := m.active - 1, aborted := m.aborted + 1 }

/-- Metrics after a sequence of events, from the constructor's zero state. -/
def metricsAfter (evs : List TxEvent) : TransactionMetrics :=
  evs.foldl applyTxEvent {}

/-- The durations of the transactions that terminated (committed or aborted,
by failed commit or by explicit rollback) in an event sequence. -/
def terminatedDurations : List TxEvent → List ℚ
  | [] => []
  | .beginTx _ :: evs => terminatedDurations evs
  | .commitOk d :: evs => d :: terminatedDurations evs
  | .commitFailed d :: evs => d :: terminatedDurations evs
  | .rollbackTx d :: evs => d :: terminatedDurations evs

/-- An event that is not an abort: begin or successful commit. -/
def nonAborting : TxEvent → Prop
  | .beginTx _ => True
  | .commitOk _ => True
  | .commitFailed _ => False
  | .rollbackTx _ => False

instance (e : TxEvent) : Decidable (nonAborting e) := by
  cases e <;> simp [nonAborting] <;> infer_instance

/-- The durations of the successful commits in an event sequence. -/
def commitDurations : List TxEvent → List ℚ
  | [] => []
  | .commitOk d :: evs => d :: commitDurations evs
  | _ :: evs => commitDurations evs

/-- The transaction-local data execute reads: the state and the held
connections, keyed by cluster id; connection handles are abstracted to
naturals. -/
structure ActiveTx where
  state : TxState
  connections : List (String × Nat)
deriving DecidableEq, Repr

inductive ExecError
  | txNotFound (txId : String)
  | wrongState (s : TxState)
  | cannotDetermineTarget
  | noConnectionForCluster (c : String)
deriving DecidableEq, Repr

/-- The operation argument of execute (sql and params are irrelevant to the
routing, so only the targeting fields are kept). -/
structure TxOperation where
  schema : Option String := none
  clusterId : Option String := none
deriving DecidableEq, Repr

/-- The private getClusterForSchema (DistributedTransaction.ts lines 344-356):
the first registered cluster whose configured schema list contains the
schema. -/
def getClusterForSchema (clusterSchemas : List (String × List String))
    (schema : String) : Option String :=
  (clusterSchemas.find? (fun kv => kv.2.contains schema)).map (fun kv => kv.1)

/-- Target resolution in execute (DistributedTransaction.ts lines 127-135):
the operation's clusterId, else its schema resolved through
getClusterForSchema. -/
def resolveExecTarget (clusterSchemas : List (String × List String))
    (op : TxOperation) : Option String :=
  match op.clusterId with
  | some c => some c
  | none => op.schema.bind (getClusterForSchema clusterSchemas)

/-- execute (DistributedTransaction.ts lines 107-151): unknown transaction is
an error; a state other than prepared is an error; an unresolvable target is
an error; a resolved cluster without a held connection is an error; otherwise
the statement runs on that cluster's connection (the result is the handle of
the connection that ran it). -/
def executeTx (clusterSchemas : List (String × List String))
    (txs : List (String × ActiveTx)) (txId : String) (op : TxOperation) :
    Except ExecError Nat :=
  match txs.lookup txId with
  | none => .error (.txNotFound txId)
  | some tx =>
    if tx.state = .prepared then
      match resolveExecTarget clusterSchemas op with
      | none => .error .cannotDetermineTarget
      | some c =>
        match tx.connections.lookup c with
        | none => .error (.noConnectionForCluster c)
        | some conn => .ok conn
    else .error (.wrongState tx.state)

/-! ## MigrationManager rollback -/

/-- The migrations-table fields the rollback path reads. -/
structure MigRecord where
  version : String
  name : String := ""
deriving DecidableEq, Repr

/-- Lexicographic code-point comparison of character lists: the behavior of
localeCompare on the ASCII version strings the migration system generates. -/
def charsLt : List Char → List Char → Bool
  | _, [] => false
  | [], _ :: _ => true
  | a :: as, b :: bs =>
    if a.toNat < b.toNat then true
    else if b.toNat < a.toNat then false
    else charsLt as bs

/-- Lexicographic order on version strings. -/
def versionLt (a b : String) : Bool := charsLt a.data b.data

/-- Stable insertion into a list sorted by descending version, mirroring the
source's sort with comparator b.version.localeCompare(a.version). -/
def insertDesc (r : MigRecord) : List MigRecord → List MigRecord
  | [] => [r]
  | x :: xs =>
    if versionLt x.version r.version then r :: x :: xs
    else x :: insertDesc r xs

/-- Sort applied records by descending version. -/
def sortDescByVersion : List MigRecord → List MigRecord
  | [] => []
  | x :: xs => insertDesc x (sortDescByVersion xs)

/-- The private getMigrationsToRollback (migration manager source lines
596-629) for a single (schema, cluster) with no targetVersion: sort the
applied records in descending version order and take the first `steps`. -/
def migrationsToRollback (applied : List MigRecord) (steps : Nat) :
    List MigRecord :=
  (sortDescByVersion applied).take steps

/-- DELETE of a record's row from the migrations table (unique per version for
a fixed schema and cluster). -/
def tableDelete (r : MigRecord) (t : List MigRecord) : List MigRecord :=
  t.filter (fun x => x.version ≠ r.version)

/-- Outcome of running the rollback loop: the versions whose down functions
ran, in execution order; the remaining migrations-table rows; and whether an
error stopped the loop. -/
structure RollbackOutcome where
  downsExecuted : List String
  table : List MigRecord
  failed : Bool
deriving DecidableEq, Repr

/-- The loop body of rollback (migration manager source lines 209-222)
together with the private rollbackMigration: a record whose migration object
is registered has its down run and its row deleted; a missing migration is
skipped silently under force, and otherwise errors, which breaks the loop. -/
def rollbackLoop (registry : List String) (force : Bool) :
    List MigRecord → List MigRecord → RollbackOutcome
  | [], table => ⟨[], table, false⟩
  | r :: rest, table =>
    if registry.contains r.version then
      let out := rollbackLoop registry force rest (tableDelete r table)
      ⟨r.version :: out.downsExecuted, out.table, out.failed⟩
    else if force then rollbackLoop registry force rest table
    else ⟨[], table, true⟩

/-- rollback (migration manager source lines 170-238) on a single
(schema, cluster): compute the records to roll back (descending, first
`steps`), then iterate over that list reversed — the source's
migrationsToRollback.reverse() — so the downs actually run in ascending
version order. -/
def rollbackRun (registry : List String) (force : Bool)
    (applied : List MigRecord) (steps : Nat) : RollbackOutcome :=
  rollbackLoop registry force ((migrationsToRollback applied steps).reverse)
    applied

/-- A concrete two-entry store used to exercise eviction: k1 has the larger
accessCount (5) but the smaller lastAccessed (1); k2 has accessCount 0,
lastAccessed 2, and the later createdAt. -/
def storeC6 : CacheStore Nat :=
  [("k1", { value := 10, ttl := 1000000, createdAt := 0, accessCount := 5,
            lastAccessed := 1, size := 0 }),
   ("k2", { value := 20, ttl := 1000000, createdAt := 1, accessCount := 0,
            lastAccessed := 2, size := 0 })]

/-! ## Helper lemmas -/

theorem cacheMapSet_lookup_self {α : Type} (key : String) (e : CacheEntry α)
    (c : CacheStore α) : (cacheMapSet key e c).lookup key = some e := by
  induction c with
  | nil => simp [cacheMapSet]
  | cons kv rest ih =>
    obtain ⟨k, v⟩ := kv
    by_cases h : k = key
    · simp [cacheMapSet, h]
    · have hbk : (key == k) = false := beq_eq_false_iff_ne.mpr (Ne.symm h)
      simp [cacheMapSet, h, List.lookup, hbk, ih]

/-! ## C10: executeQuery double-decrements activeConnections -/

/-- C10: every executeQuery call decrements the shared activeConnections
counter twice — once inside the wrapped connection's release (clamped at
zero) and once more, unguarded, in the finally block — against the single
increment performed in getConnection, so the net change per executed query is
minus one instead of zero, the counter no longer matches the number of
acquired connections, and from zero it becomes negative. -/
theorem executeQuery_net_counter (s : CMStats) (success : Bool)
    (h : 0 ≤ s.activeConnections) :
    (executeQueryStats s success).activeConnections =
      s.activeConnections - 1 ∧
    (executeQueryStats s success).activeConnections ≠ s.activeConnections ∧
    (executeQueryStats { s with activeConnections := 0 }
        success).activeConnections < 0 := by
  cases success <;>
    simp [executeQueryStats, acquireStats, wrappedReleaseStats] <;>
    omega

/-- Witness for C10 at a concrete stats value. -/
theorem executeQuery_net_counter_witness :
    (executeQueryStats
        { totalQueries := 0, failedQueries := 0, activeConnections := 2 }
        true).activeConnections = 2 - 1 ∧
    (executeQueryStats
        { totalQueries := 0, failedQueries := 0, activeConnections := 2 }
        true).activeConnections ≠ 2 ∧
    (executeQueryStats
        { totalQueries := 0, failedQueries := 0, activeConnections := 0 }
        true).activeConnections < 0 :=
  executeQuery_net_counter
    { totalQueries := 0, failedQueries := 0, activeConnections := 2 } true
    (by decide)

/-! ## C8: execute validation in DistributedTransaction -/

/-- C8: execute errors whenever the transaction's state is not prepared, and
whenever no target cluster can be resolved (neither schema nor clusterId
usable) or the resolved cluster holds no connection in this transaction;
otherwise the statement runs on the resolved cluster's connection and its
result is returned. -/
theorem executeTx_validates (clusterSchemas : List (String × List String))
    (txs : List (String × ActiveTx)) (txId : String) (op : TxOperation)
    (tx : ActiveTx) (hfound : txs.lookup txId = some tx) :
    (tx.state ≠ .prepared →
      executeTx clusterSchemas txs txId op = .error (.wrongState tx.state)) ∧
    (tx.state = .prepared → resolveExecTarget clusterSchemas op = none →
      executeTx clusterSchemas txs txId op = .error .cannotDetermineTarget) ∧
    (∀ c, tx.state = .prepared →
      resolveExecTarget clusterSchemas op = some c →
      tx.connections.lookup c = none →
      executeTx clusterSchemas txs txId op =
        .error (.noConnectionForCluster c)) ∧
    (∀ c conn, tx.state = .prepared →
      resolveExecTarget clusterSchemas op = some c →
      tx.connections.lookup c = some conn →
      executeTx clusterSchemas txs txId op = .ok conn) := by
  refine ⟨?_, ?_, ?_, ?_⟩
  · intro hst
    simp [executeTx, hfound, hst]
  · intro hst hres
    simp [executeTx, hfound, hst, hres]
  · intro c hst hres hconn
    simp [executeTx, hfound, hst, hres, hconn]
  · intro c conn hst hres hconn
    simp [executeTx, hfound, hst, hres, hconn]

/-- Witness for C8: a prepared transaction holding a connection for the
cluster of schema users runs the statement on that connection. -/
theorem executeTx_validates_witness :
    executeTx [("c1", ["users"])]
      [("t1", { state := .prepared, connections := [("c1", 7)] })] "t1"
      { schema := some "users" } = .ok 7 :=
  (executeTx_validates [("c1", ["users"])]
      [("t1", { state := .prepared, connections := [("c1", 7)] })] "t1"
      { schema := some "users" }
      { state := .prepared, connections := [("c1", 7)] }
      (by decide)).2.2.2 "c1" 7 rfl (by decide) (by decide)

/-! ## C2: prepare-phase failure rolls everything back -/

/-- C2: when a multi-cluster commit fails in the prepare phase, every
participant whose PREPARE TRANSACTION succeeded receives ROLLBACK PREPARED,
every participant observes a plain ROLLBACK, the transaction ends aborted,
and commit re-raises the error. -/
theorem commit_prepareFailure_aborts (parts : List Participant)
    (hmulti : 1 < parts.length)
    (hfail : ∃ p ∈ parts, p.prepareOk = false) :
    (∀ p ∈ parts, p.prepareOk = true →
      (p.clusterId, TxCmd.rollbackPrepared) ∈ (commitTx parts).trace) ∧
    (∀ p ∈ parts, (p.clusterId, TxCmd.rollbackCmd) ∈ (commitTx parts).trace) ∧
    (commitTx parts).finalState = .aborted ∧
    (commitTx parts).isError = true := by
  obtain ⟨q, hq, hqf⟩ := hfail
  have hmem : q ∈ parts.filter (fun p => !p.prepareOk) :=
    List.mem_filter.mpr ⟨hq, by simp [hqf]⟩
  have hne : (parts.filter (fun p => !p.prepareOk)).isEmpty = false := by
    cases hh : parts.filter (fun p => !p.prepareOk) with
    | nil => rw [hh] at hmem; exact absurd hmem (List.not_mem_nil q)
    | cons a l => rfl
  have htx : commitTx parts =
      ⟨((parts.map fun p => (p.clusterId, TxCmd.prepareTx)) ++
          ((parts.filter fun p => p.prepareOk).map
            fun p => (p.clusterId, TxCmd.rollbackPrepared))) ++
        (parts.map fun p => (p.clusterId, TxCmd.rollbackCmd)),
       .aborted, true⟩ := by
    simp [commitTx, twoPhaseCommit, hmulti, hne]
  refine ⟨?_, ?_, ?_, ?_⟩
  · intro p hp hpOk
    rw [htx]
    refine List.mem_append_left _ (List.mem_append_right _ ?_)
    exact List.mem_map_of_mem _ (List.mem_filter.mpr ⟨hp, by simp [hpOk]⟩)
  · intro p hp
    rw [htx]
    exact List.mem_append_right _ (List.mem_map_of_mem _ hp)
  · rw [htx]
  · rw [htx]

/-- Witness for C2: two participants, the second one failing PREPARE. -/
theorem commit_prepareFailure_aborts_witness :
    (∀ p ∈ [{ clusterId := "a" : Participant },
            { clusterId := "b", prepareOk := false : Participant }],
      p.prepareOk = true →
      (p.clusterId, TxCmd.rollbackPrepared) ∈
        (commitTx [{ clusterId := "a" },
                   { clusterId := "b", prepareOk := false }]).trace) ∧
    (∀ p ∈ [{ clusterId := "a" : Participant },
            { clusterId := "b", prepareOk := false : Participant }],
      (p.clusterId, TxCmd.rollbackCmd) ∈
        (commitTx [{ clusterId := "a" },
                   { clusterId := "b", prepareOk := false }]).trace) ∧
    (commitTx [{ clusterId := "a" },
               { clusterId := "b", prepareOk := false }]).finalState =
      .aborted ∧
    (commitTx [{ clusterId := "a" },
               { clusterId := "b", prepareOk := false }]).isError = true :=
  commit_prepareFailure_aborts
    [{ clusterId := "a" }, { clusterId := "b", prepareOk := false }]
    (by decide)
    ⟨{ clusterId := "b", prepareOk := false }, by decide, rfl⟩

/-! ## C7: cache get contract -/

/-- C7: cacheGet returns a value only for a present, unexpired key (absolute
expiry not in the past); an absent or expired key is a miss, an expired entry
is removed by the access itself, and on a hit the entry's accessCount is
incremented and lastAccessed is set to the current time. -/
theorem cacheGet_contract {α : Type} (now : Nat) (key : String)
    (c : CacheStore α) :
    ((cacheGet now key c).1.isSome = true ↔
      ∃ e, c.lookup key = some e ∧ now ≤ e.ttl) ∧
    (c.lookup key = none → cacheGet now key c = (none, c)) ∧
    (∀ e, c.lookup key = some e → e.ttl < now →
      cacheGet now key c = (none, cacheMapDelete key c)) ∧
    (∀ e, c.lookup key = some e → now ≤ e.ttl →
      (cacheGet now key c).1 = some e.value ∧
      (cacheGet now key c).2.lookup key =
        some { e with accessCount := e.accessCount + 1,
                      lastAccessed := now }) := by
  cases hl : c.lookup key with
  | none =>
    refine ⟨?_, ?_, ?_, ?_⟩ <;> simp [cacheGet, hl]
  | some e =>
    by_cases hexp : e.ttl < now
    · have hE : isExpired now e = true := by
        simp only [isExpired, decide_eq_true_eq]
        exact hexp
      refine ⟨?_, ?_, ?_, ?_⟩
      · simp only [cacheGet, hl, hE, if_true, Option.isSome_none]
        constructor
        · intro h; cases h
        · rintro ⟨e', he', hle⟩
          injection he' with hee
          subst hee
          omega
      · intro h; exact Option.noConfusion h
      · intro e' he' _
        injection he' with hee
        subst hee
        simp [cacheGet, hl, hE]
      · intro e' he' hle
        injection he' with hee
        subst hee
        omega
    · have hE : isExpired now e = false := by
        simp only [isExpired, decide_eq_false_iff_not]
        exact hexp
      refine ⟨?_, ?_, ?_, ?_⟩
      · simp only [cacheGet, hl, hE, if_false, Option.isSome_some]
        constructor
        · intro _; exact ⟨e, rfl, by omega⟩
        · intro _; rfl
      · intro h; exact Option.noConfusion h
      · intro e' he' hlt
        injection he' with hee
        subst hee
        omega
      · intro e' he' _
        injection he' with hee
        subst hee
        constructor
        · simp [cacheGet, hl, hE]
        · simp only [cacheGet, hl, hE, if_false]
          exact cacheMapSet_lookup_self key _ c

/-- Witness for C7: a hit on a fresh entry returns the value, bumps
accessCount, and refreshes lastAccessed. -/
theorem cacheGet_contract_witness :
    (cacheGet 10 "k"
        [("k", { value := (42 : Nat), ttl := 100, createdAt := 0,
                 accessCount := 0, lastAccessed := 0, size := 1 })]).1 =
      some 42 ∧
    (cacheGet 10 "k"
        [("k", { value := (42 : Nat), ttl := 100, createdAt := 0,
                 accessCount := 0, lastAccessed := 0, size := 1 })]).2.lookup
        "k" =
      some { value := 42, ttl := 100, createdAt := 0, accessCount := 0 + 1,
             lastAccessed := 10, size := 1 } :=
  (cacheGet_contract 10 "k"
      [("k", { value := (42 : Nat), ttl := 100, createdAt := 0,
               accessCount := 0, lastAccessed := 0, size := 1 })]).2.2.2
    { value := 42, ttl := 100, createdAt := 0, accessCount := 0,
      lastAccessed := 0, size := 1 }
    (by decide) (by decide)

/-! ## C6: eviction ignores the configured strategy -/

/-- Scan step of evictLRU: the result is an element of the scanned prefix (or
the seed) and carries the smallest lastAccessed seen. -/
theorem lruStep_foldl_spec {α : Type} (l : List (String × CacheEntry α))
    (b : String × CacheEntry α) :
    ∃ kv, l.foldl lruStep (some b) = some kv ∧ (kv = b ∨ kv ∈ l) ∧
      kv.2.lastAccessed ≤ b.2.lastAccessed ∧
      ∀ kv' ∈ l, kv.2.lastAccessed ≤ kv'.2.lastAccessed := by
  induction l generalizing b with
  | nil => exact ⟨b, rfl, Or.inl rfl, le_refl _, by simp⟩
  | cons x xs ih =>
    by_cases h : x.2.lastAccessed < b.2.lastAccessed
    · obtain ⟨kv, hfold, hmem, hle, hall⟩ := ih x
      refine ⟨kv, ?_, ?_, ?_, ?_⟩
      · simpa [lruStep, h] using hfold
      · rcases hmem with heq | hm
        · exact Or.inr (by simp [heq])
        · exact Or.inr (List.mem_cons_of_mem _ hm)
      · exact le_trans hle (le_of_lt h)
      · intro kv' hkv'
        rcases List.mem_cons.mp hkv' with heq | hm
        · rw [heq]; exact hle
        · exact hall kv' hm
    · obtain ⟨kv, hfold, hmem, hle, hall⟩ := ih b
      refine ⟨kv, ?_, ?_, ?_, ?_⟩
      · simpa [lruStep, h] using hfold
      · rcases hmem with heq | hm
        · exact Or.inl heq
        · exact Or.inr (List.mem_cons_of_mem _ hm)
      · exact hle
      · intro kv' hkv'
        rcases List.mem_cons.mp hkv' with heq | hm
        · rw [heq]; omega
        · exact hall kv' hm

/-- The evictLRU victim of a non-empty store exists, belongs to the store, and
has the globally smallest lastAccessed. -/
theorem lruVictim_spec {α : Type} (c : CacheStore α) (hne : c ≠ []) :
    ∃ kv, lruVictim c = some kv ∧ kv ∈ c ∧
      ∀ kv' ∈ c, kv.2.lastAccessed ≤ kv'.2.lastAccessed := by
  cases c with
  | nil => exact absurd rfl hne
  | cons x xs =>
    obtain ⟨kv, hfold, hmem, hle, hall⟩ := lruStep_foldl_spec xs x
    refine ⟨kv, ?_, ?_, ?_⟩
    · simpa [lruVictim, lruStep] using hfold
    · rcases hmem with heq | hm
      · simp [heq]
      · exact List.mem_cons_of_mem _ hm
    · intro kv' hkv'
      rcases List.mem_cons.mp hkv' with heq | hm
      · rw [heq]; exact hle
      · exact hall kv' hm

/-- Deleting a key that is present removes exactly one entry. -/
theorem cacheMapDelete_length {α : Type} (key : String) (c : CacheStore α)
    (h : ∃ e : CacheEntry α, (key, e) ∈ c) :
    (cacheMapDelete key c).length + 1 = c.length := by
  induction c with
  | nil => obtain ⟨e, he⟩ := h; cases he
  | cons kv rest ih =>
    obtain ⟨e, he⟩ := h
    by_cases hk : kv.1 = key
    · simp [cacheMapDelete, hk]
    · have hrest : (key, e) ∈ rest := by
        rcases List.mem_cons.mp he with heq | hm
        · cases heq; simp at hk
        · exact hm
      simp [cacheMapDelete, hk, ih ⟨e, hrest⟩]

/-- C6 counterexample: with strategy lfu and a full cache, the entry with the
smallest accessCount (k2, count 0) should be evicted per the claim, yet set
evicts k1 (count 5), the entry with the smallest lastAccessed. -/
theorem cacheSet_strategy_counterexample :
    ((cacheSet { maxSize := 2, ttl := 300000, strategy := .lfu }
        (fun _ => 0) 3 "k3" (30 : Nat) none [] none none storeC6).lookup
      "k1" = none) ∧
    ((cacheSet { maxSize := 2, ttl := 300000, strategy := .lfu }
        (fun _ => 0) 3 "k3" (30 : Nat) none [] none none storeC6).lookup
      "k2" =
      some { value := 20, ttl := 1000000, createdAt := 1,
             accessCount := 0, lastAccessed := 2, size := 0 }) ∧
    (0 : Nat) < 5 := by
  refine ⟨by decide, by decide, by decide⟩

/-- C6 amended: when the entry count has reached maxSize, set evicts exactly
one entry before inserting, and regardless of the configured strategy the
victim is always the entry with the smallest lastAccessed (the LRU rule, the
earliest-inserted winning ties). -/
theorem cacheSet_evicts_lru_always {α : Type} (cfg : CacheConfig)
    (calcSize : α → Nat) (now : Nat) (key : String) (v : α)
    (ttlOpt : Option Nat) (tags : List String)
    (schema cluster : Option String) (c : CacheStore α)
    (hfull : cfg.maxSize ≤ c.length) (hpos : 0 < cfg.maxSize) :
    ∃ vk ve, lruVictim c = some (vk, ve) ∧ (vk, ve) ∈ c ∧
      (∀ kv ∈ c, ve.lastAccessed ≤ kv.2.lastAccessed) ∧
      (cacheMapDelete vk c).length + 1 = c.length ∧
      cacheSet cfg calcSize now key v ttlOpt tags schema cluster c =
        cacheMapSet key
          (freshEntry cfg calcSize now v ttlOpt tags schema cluster)
          (cacheMapDelete vk c) := by
  have hne : c ≠ [] := by
    intro h
    rw [h] at hfull
    simp at hfull
    omega
  obtain ⟨kv, hvic, hmem, hall⟩ := lruVictim_spec c hne
  refine ⟨kv.1, kv.2, by simpa using hvic, by simpa using hmem, ?_, ?_, ?_⟩
  · exact hall
  · exact cacheMapDelete_length kv.1 c ⟨kv.2, by simpa using hmem⟩
  · simp [cacheSet, evictLRU, hvic, if_pos hfull]

/-- Witness for C6 amended at the same concrete store as the counterexample,
under strategy fifo. -/
theorem cacheSet_evicts_lru_always_witness :
    ∃ vk ve,
      lruVictim storeC6 = some (vk, ve) ∧ (vk, ve) ∈ storeC6 ∧
      (∀ kv ∈ storeC6, ve.lastAccessed ≤ kv.2.lastAccessed) ∧
      (cacheMapDelete vk storeC6).length + 1 = storeC6.length ∧
      cacheSet { maxSize := 2, ttl := 300000, strategy := .fifo }
          (fun _ => 0) 3 "k3" (30 : Nat) none [] none none storeC6 =
        cacheMapSet "k3"
          (freshEntry { maxSize := 2, ttl := 300000, strategy := .fifo }
            (fun _ => 0) 3 30 none [] none none)
          (cacheMapDelete vk storeC6) :=
  cacheSet_evicts_lru_always { maxSize := 2, ttl := 300000, strategy := .fifo }
    (fun _ => 0) 3 "k3" 30 none [] none none storeC6
    (by decide) (by decide)

/-! ## C4: rollback execution order -/

/-- C4 evaluation at the failing input: with two applied migrations and
steps = 2, the selected set is the two largest versions (both rows are
deleted), but the down functions execute in ascending version order — the
smaller version first — because rollback reverses the descending list, so the
claimed reverse-applied (largest-first) order does not hold. -/
theorem rollback_order_at_failing_input :
    rollbackRun ["20240101000000_one", "20240102000000_two"] false
      [{ version := "20240101000000_one" },
       { version := "20240102000000_two" }] 2 =
      { downsExecuted := ["20240101000000_one", "20240102000000_two"],
        table := [], failed := false } ∧
    (["20240101000000_one", "20240102000000_two"] : List String) ≠
      ["20240102000000_two", "20240101000000_one"] := by
  refine ⟨by decide, by decide⟩

/-! ## C9: round-robin balance -/

/-- A run of round_robin selections, from any starting cursor, lists the
residues of consecutive integers. -/
theorem selectReplicaRun_eq_map (N : Nat) (hN : 1 ≤ N) :
    ∀ (m c : Nat),
      selectReplicaRun N c m = (List.range m).map (fun j => (c + j) % N) := by
  intro m
  induction m with
  | zero => intro c; simp [selectReplicaRun]
  | succ m ih =>
    intro c
    have hR : (List.range (m + 1)).map (fun j => (c + j) % N) =
        (c % N) :: (List.range m).map (fun j => (c + 1 + j) % N) := by
      rw [List.range_succ_eq_map, List.map_cons, List.map_map]
      have hh : (c + 0) % N = c % N := by norm_num
      have ht : (List.range m).map ((fun j => (c + j) % N) ∘ Nat.succ) =
          (List.range m).map (fun j => (c + 1 + j) % N) := by
        refine List.map_congr_left ?_
        intro j _
        show (c + (j + 1)) % N = (c + 1 + j) % N
        congr 1
        omega
      rw [hh, ht]
    by_cases h1 : N = 1
    · subst h1
      have hsel : selectReplica 1 c = .ok (0, c) := by
        simp [selectReplica]
      simp only [selectReplicaRun, hsel]
      rw [ih c, hR, Nat.mod_one]
      congr 1
      refine List.map_congr_left ?_
      intro j _
      simp [Nat.mod_one]
    · have hsel : selectReplica N c = .ok (c % N, (c + 1) % N) := by
        unfold selectReplica roundRobinSelect
        rw [if_neg (by omega), if_neg h1]
      simp only [selectReplicaRun, hsel]
      rw [ih ((c + 1) % N), hR]
      congr 1
      refine List.map_congr_left ?_
      intro j _
      show ((c + 1) % N + j) % N = (c + 1 + j) % N
      rw [Nat.mod_add_mod]

/-- Over one full period of N consecutive integers, each residue class modulo
N is hit exactly once. -/
theorem count_mod_range (N : Nat) (hN : 0 < N) (c i : Nat) (hi : i < N) :
    ((List.range N).map (fun j => (c + j) % N)).count i = 1 := by
  have hnd : ((List.range N).map (fun j => (c + j) % N)).Nodup := by
    refine List.Nodup.map_on ?_ (List.nodup_range N)
    intro j hj j' hj' hEq
    rw [List.mem_range] at hj hj'
    have h1 : j % N = j' % N :=
      Nat.ModEq.add_left_cancel' c (show c + j ≡ c + j' [MOD N] from hEq)
    rwa [Nat.mod_eq_of_lt hj, Nat.mod_eq_of_lt hj'] at h1
  have hmem : i ∈ (List.range N).map (fun j => (c + j) % N) := by
    have hsub : ((List.range N).map (fun j => (c + j) % N)).toFinset ⊆
        Finset.range N := by
      intro x hx
      rw [List.mem_toFinset] at hx
      obtain ⟨j, _, rfl⟩ := List.mem_map.mp hx
      exact Finset.mem_range.mpr (Nat.mod_lt _ hN)
    have hcard : (Finset.range N).card ≤
        ((List.range N).map (fun j => (c + j) % N)).toFinset.card := by
      rw [List.toFinset_card_of_nodup hnd]
      simp
    rw [← List.mem_toFinset, Finset.eq_of_subset_of_card_le hsub hcard]
    exact Finset.mem_range.mpr hi
  exact List.count_eq_one_of_mem hnd hmem

/-- Over K full periods, each residue class modulo N is hit exactly K
times. -/
theorem count_mod_range_mul (N : Nat) (hN : 0 < N) (K c i : Nat)
    (hi : i < N) :
    ((List.range (N * K)).map (fun j => (c + j) % N)).count i = K := by
  induction K with
  | zero => simp
  | succ K ih =>
    rw [show N * (K + 1) = N * K + N by ring, List.range_add,
      List.map_append, List.count_append, ih, List.map_map]
    have hcongr : (List.range N).map
        ((fun j => (c + j) % N) ∘ (fun j => N * K + j)) =
        (List.range N).map (fun j => (c + j) % N) := by
      refine List.map_congr_left ?_
      intro j hj
      show (c + (N * K + j)) % N = (c + j) % N
      rw [show c + (N * K + j) = c + j + K * N by ring,
        Nat.add_mul_mod_self_right]
    rw [hcongr, count_mod_range N hN c i hi]

/-- C9: for every replica list of length N ≥ 1 and every K ≥ 1, any N times K
consecutive round_robin selections return each index below N exactly K times,
whatever the starting cursor. -/
theorem roundRobin_balanced (N K c : Nat) (hN : 1 ≤ N) (_hK : 1 ≤ K) :
    ∀ i < N, (selectReplicaRun N c (N * K)).count i = K := by
  intro i hi
  rw [selectReplicaRun_eq_map N hN (N * K) c]
  exact count_mod_range_mul N (by omega) K c i hi

/-- Witness for C9: three replicas, six selections starting at cursor 5, each
index selected exactly twice. -/
theorem roundRobin_balanced_witness :
    (selectReplicaRun 3 5 (3 * 2)).count 0 = 2 ∧
    (selectReplicaRun 3 5 (3 * 2)).count 1 = 2 ∧
    (selectReplicaRun 3 5 (3 * 2)).count 2 = 2 :=
  ⟨roundRobin_balanced 3 2 5 (by decide) (by decide) 0 (by decide),
   roundRobin_balanced 3 2 5 (by decide) (by decide) 1 (by decide),
   roundRobin_balanced 3 2 5 (by decide) (by decide) 2 (by decide)⟩

/-! ## C5: avgDuration -/

/-- C5 counterexample: a transaction terminated by explicit rollback with
duration 5 leaves avgDuration at 0, while the mean over all terminated
transactions is 5; updateAvgDuration is only ever called on the
successful-commit path. -/
theorem avgDuration_counterexample :
    (metricsAfter [TxEvent.beginTx false,
        TxEvent.rollbackTx 5]).avgDuration = 0 ∧
    (terminatedDurations [TxEvent.beginTx false, TxEvent.rollbackTx 5]).sum /
        ((terminatedDurations [TxEvent.beginTx false,
            TxEvent.rollbackTx 5]).length : ℚ) = 5 ∧
    (0 : ℚ) ≠ 5 := by
  refine ⟨rfl, by norm_num [terminatedDurations], by norm_num⟩

/-- Folding non-aborting events keeps aborted at zero, counts the commits, and
accumulates avgDuration times committed as the running sum of commit
durations. -/
theorem metricsFold_commit_invariant (evs : List TxEvent) :
    ∀ m : TransactionMetrics, (∀ e ∈ evs, nonAborting e) → m.aborted = 0 →
      (evs.foldl applyTxEvent m).aborted = 0 ∧
      (evs.foldl applyTxEvent m).committed =
        m.committed + (commitDurations evs).length ∧
      (evs.foldl applyTxEvent m).avgDuration *
          ((evs.foldl applyTxEvent m).committed : ℚ) =
        m.avgDuration * (m.committed : ℚ) + (commitDurations evs).sum := by
  induction evs with
  | nil =>
    intro m _ hab
    exact ⟨hab, by simp [commitDurations], by simp [commitDurations]⟩
  | cons e evs ih =>
    intro m hall hab
    have hne : nonAborting e := hall e (List.mem_cons_self e evs)
    have hall' : ∀ x ∈ evs, nonAborting x :=
      fun x hx => hall x (List.mem_cons_of_mem e hx)
    cases e with
    | beginTx d =>
      simp only [List.foldl_cons]
      obtain ⟨h1, h2, h3⟩ :=
        ih (applyTxEvent m (.beginTx d)) hall' (by simp [applyTxEvent, hab])
      refine ⟨h1, ?_, ?_⟩
      · rw [h2]; simp [applyTxEvent, commitDurations]
      · rw [h3]; simp [applyTxEvent, commitDurations]
    | commitOk dur =>
      simp only [List.foldl_cons]
      have habm1 : (applyTxEvent m (.commitOk dur)).aborted = 0 := by
        simp [applyTxEvent, hab]
      obtain ⟨h1, h2, h3⟩ := ih (applyTxEvent m (.commitOk dur)) hall' habm1
      have hcm1 : (applyTxEvent m (.commitOk dur)).committed =
          m.committed + 1 := by
        simp [applyTxEvent]
      have hz : ((m.committed : ℚ) + 1) ≠ 0 := by positivity
      have havg1 : (applyTxEvent m (.commitOk dur)).avgDuration *
          (((applyTxEvent m (.commitOk dur)).committed : ℚ)) =
          m.avgDuration * (m.committed : ℚ) + dur := by
        simp only [applyTxEvent, updateAvgDuration, hab, Nat.add_zero]
        rw [if_neg (by omega : ¬m.committed + 1 = 0)]
        push_cast
        rw [div_mul_cancel₀ _ hz]
        ring
      refine ⟨h1, ?_, ?_⟩
      · rw [h2, hcm1, commitDurations]
        simp
        omega
      · rw [h3, havg1, commitDurations]
        simp [List.sum_cons]
        ring
    | commitFailed dur => exact absurd hne (by simp [nonAborting])
    | rollbackTx dur => exact absurd hne (by simp [nonAborting])

/-- C5 amended: avgDuration is updated only by successful commits — aborted
transactions (explicit rollback or failed commit) leave it unchanged, though
they inflate the divisor of later updates — and when every terminated
transaction committed successfully, avgDuration equals the arithmetic mean of
the committed durations. -/
theorem avgDuration_amended :
    (∀ (m : TransactionMetrics) (d : ℚ),
      (applyTxEvent m (TxEvent.rollbackTx d)).avgDuration = m.avgDuration) ∧
    (∀ (m : TransactionMetrics) (d : ℚ),
      (applyTxEvent m (TxEvent.commitFailed d)).avgDuration =
        m.avgDuration) ∧
    (∀ evs : List TxEvent, (∀ e ∈ evs, nonAborting e) →
      commitDurations evs ≠ [] →
      (metricsAfter evs).avgDuration =
        (commitDurations evs).sum / ((commitDurations evs).length : ℚ)) := by
  refine ⟨fun m d => rfl, fun m d => rfl, ?_⟩
  intro evs hall hnonempty
  obtain ⟨h1, h2, h3⟩ := metricsFold_commit_invariant evs {} hall rfl
  have hlen : (evs.foldl applyTxEvent {}).committed =
      (commitDurations evs).length := by simpa using h2
  have hsum : (evs.foldl applyTxEvent {}).avgDuration *
      ((commitDurations evs).length : ℚ) = (commitDurations evs).sum := by
    rw [hlen] at h3
    simpa using h3
  have hlz : ((commitDurations evs).length : ℚ) ≠ 0 := by
    have hne0 : (commitDurations evs).length ≠ 0 := by
      intro h0
      exact hnonempty (List.eq_nil_of_length_eq_zero h0)
    exact_mod_cast hne0
  rw [metricsAfter, eq_div_iff hlz]
  exact hsum

/-- Witness for C5 amended: one rollback leaves avgDuration unchanged, and two
successful commits of durations 4 and 8 average to 6. -/
theorem avgDuration_amended_witness :
    (applyTxEvent { avgDuration := 3 } (TxEvent.rollbackTx 9)).avgDuration =
      3 ∧
    (metricsAfter [TxEvent.commitOk 4, TxEvent.commitOk 8]).avgDuration =
      (commitDurations [TxEvent.commitOk 4, TxEvent.commitOk 8]).sum /
        ((commitDurations [TxEvent.commitOk 4,
            TxEvent.commitOk 8]).length : ℚ) :=
  ⟨avgDuration_amended.1 { avgDuration := 3 } 9,
   avgDuration_amended.2.2 [TxEvent.commitOk 4, TxEvent.commitOk 8]
     (by intro e he; fin_cases he <;> simp [nonAborting])
     (by simp [commitDurations])⟩


/-! ## C1: cluster status checks in getConnection -/

/-- Lookup commutes with rewriting every cluster's status. -/
theorem lookup_map_statuses (f : ClusterStatus → ClusterStatus)
    (l : List (String × ClusterInfo)) (cid : String) :
    (l.map (fun kv => (kv.1, setStatus f kv.2))).lookup cid =
      (l.lookup cid).map (setStatus f) := by
  induction l with
  | nil => rfl
  | cons kv rest ih =>
    obtain ⟨k, v⟩ := kv
    by_cases h : cid = k
    · simp [List.lookup, h]
    · have hb : (cid == k) = false := beq_eq_false_iff_ne.mpr h
      simp [List.lookup, hb, ih]

/-- Target resolution never reads cluster statuses when the caller supplied a
clusterId or a schema. -/
theorem resolveTarget_status_blind (f : ClusterStatus → ClusterStatus)
    (st : ManagerState) (opts : QueryOptions)
    (h : opts.clusterId.isSome = true ∨ opts.schema.isSome = true) :
    resolveTarget (mapStatuses f st) opts = resolveTarget st opts := by
  cases hc : opts.clusterId with
  | some cid => simp [resolveTarget, hc, mapStatuses]
  | none =>
    cases hs : opts.schema with
    | some s => simp [resolveTarget, hc, hs, mapStatuses]
    | none =>
      rw [hc, hs] at h
      simp at h

/-- In a list with pairwise distinct keys, lookup of a member's key returns
that member's value. -/
theorem lookup_of_mem_nodupKeys {β : Type} (l : List (String × β))
    (hnd : (l.map Prod.fst).Nodup) (kv : String × β) (hm : kv ∈ l) :
    l.lookup kv.1 = some kv.2 := by
  induction l with
  | nil => cases hm
  | cons x rest ih =>
    rw [List.map_cons] at hnd
    have hnd' := List.nodup_cons.mp hnd
    rcases List.mem_cons.mp hm with heq | hm'
    · subst heq
      simp [List.lookup]
    · have hx : x.1 ≠ kv.1 := by
        intro hEq
        exact hnd'.1 (hEq ▸ List.mem_map_of_mem Prod.fst hm')
      have hb : (kv.1 == x.1) = false := beq_eq_false_iff_ne.mpr (Ne.symm hx)
      simp only [List.lookup, hb]
      exact ih hnd'.2 hm'

/-- C1 counterexample: a schema-resolved cluster whose status is down is used
without any error — getConnection succeeds on it although the caller did not
target it by clusterId, refuting the claimed status rejection. -/
theorem getConnection_status_counterexample :
    getConnection
      { isInitialized := true,
        clusters := [("c1", { hasPrimary := true, replicaCount := 0,
                              status := .down })],
        schemaClusterMap := [("users", "c1")], lbCursor := 0 }
      { schema := some "users" } =
      .ok { clusterId := "c1", pool := .primaryPool, lbCursor := 0 } ∧
    ({ schema := some "users" } : QueryOptions).clusterId = none ∧
    ClusterStatus.down ≠ ClusterStatus.active := by
  refine ⟨rfl, rfl, by decide⟩

/-- C1 amended: getConnection never consults cluster status when the caller
supplies a clusterId or a schema — the call behaves identically whatever the
statuses are; status is only consulted on the default path (neither clusterId
nor schema), which picks the first active cluster and errors when none is
active, so a connection obtained through the default path always comes from a
cluster whose status is active. -/
theorem getConnection_status_amended :
    (∀ (f : ClusterStatus → ClusterStatus) (st : ManagerState)
        (opts : QueryOptions),
      opts.clusterId.isSome = true ∨ opts.schema.isSome = true →
      getConnection (mapStatuses f st) opts = getConnection st opts) ∧
    (∀ (st : ManagerState) (opts : QueryOptions) (o : ConnOutcome),
      (st.clusters.map Prod.fst).Nodup →
      opts.clusterId = none → opts.schema = none →
      getConnection st opts = .ok o →
      ∃ cl, st.clusters.lookup o.clusterId = some cl ∧
        cl.status = .active) := by
  constructor
  · intro f st opts h
    unfold getConnection
    rw [show (mapStatuses f st).isInitialized = st.isInitialized from rfl,
      resolveTarget_status_blind f st opts h]
    by_cases hI : st.isInitialized = true
    · rw [if_pos hI, if_pos hI]
      cases hr : resolveTarget st opts with
      | error e => rfl
      | ok cid =>
        have hms : (mapStatuses f st).clusters =
            st.clusters.map (fun kv => (kv.1, setStatus f kv.2)) := rfl
        simp only [hms, lookup_map_statuses]
        cases hl : st.clusters.lookup cid with
        | none => rfl
        | some cl =>
          cases cl
          rfl
    · rw [if_neg hI, if_neg hI]
  · intro st opts o hnd hc hs hok
    by_cases hI : st.isInitialized = true
    swap
    · unfold getConnection at hok
      rw [if_neg hI] at hok
      exact Except.noConfusion hok
    unfold getConnection at hok
    rw [if_pos hI] at hok
    cases hr : resolveTarget st opts with
    | error e =>
      simp only [hr] at hok
      exact Except.noConfusion hok
    | ok cid =>
      simp only [hr] at hok
      obtain ⟨kv, hmem, hact, hkc⟩ :
          ∃ kv, kv ∈ st.clusters ∧ kv.2.status = .active ∧ kv.1 = cid := by
        simp only [resolveTarget, hc, hs] at hr
        cases hh :
            (st.clusters.filter (fun kv => kv.2.status = .active)).head? with
        | none =>
          simp only [hh] at hr
          exact Except.noConfusion hr
        | some kv =>
          simp only [hh] at hr
          injection hr with hr1
          have hkmem : kv ∈ st.clusters.filter
              (fun kv => kv.2.status = .active) :=
            List.mem_of_mem_head? (by rw [hh]; rfl)
          exact ⟨kv, (List.mem_filter.mp hkmem).1,
            by simpa using (List.mem_filter.mp hkmem).2, hr1⟩
      cases hl : st.clusters.lookup cid with
      | none =>
        simp only [hl] at hok
        exact Except.noConfusion hok
      | some cl =>
        simp only [hl] at hok
        cases hsp : selectPool cl cid opts st.lbCursor with
        | error e =>
          simp only [hsp] at hok
          exact Except.noConfusion hok
        | ok pr =>
          simp only [hsp] at hok
          injection hok with hout
          have hlk : st.clusters.lookup cid = some kv.2 := by
            rw [← hkc]
            exact lookup_of_mem_nodupKeys st.clusters hnd kv hmem
          rw [hl] at hlk
          injection hlk with hclkv
          refine ⟨cl, ?_, ?_⟩
          · rw [← hout]
            exact hl
          · rw [hclkv]
            exact hact

/-- Witness for C1 amended: rewriting the status of a clusterId-targeted
cluster does not change the outcome, and the default path resolves to an
active cluster. -/
theorem getConnection_status_amended_witness :
    getConnection
      (mapStatuses (fun _ => ClusterStatus.down)
        { isInitialized := true,
          clusters := [("c1", { hasPrimary := true, replicaCount := 0,
                                status := .active })],
          schemaClusterMap := [("users", "c1")], lbCursor := 0 })
      { clusterId := some "c1" } =
      getConnection
        { isInitialized := true,
          clusters := [("c1", { hasPrimary := true, replicaCount := 0,
                                status := .active })],
          schemaClusterMap := [("users", "c1")], lbCursor := 0 }
        { clusterId := some "c1" } ∧
    ∃ cl,
      List.lookup "c1"
        ([("c1", { hasPrimary := true, replicaCount := 0,
                   status := ClusterStatus.active })] :
          List (String × ClusterInfo)) = some cl ∧
      cl.status = .active :=
  ⟨getConnection_status_amended.1 (fun _ => ClusterStatus.down)
      { isInitialized := true,
        clusters := [("c1", { hasPrimary := true, replicaCount := 0,
                              status := .active })],
        schemaClusterMap := [("users", "c1")], lbCursor := 0 }
      { clusterId := some "c1" } (Or.inl rfl),
   getConnection_status_amended.2
      { isInitialized := true,
        clusters := [("c1", { hasPrimary := true, replicaCount := 0,
                              status := .active })],
        schemaClusterMap := [("users", "c1")], lbCursor := 0 }
      {} { clusterId := "c1", pool := .primaryPool, lbCursor := 0 }
      (by decide) rfl rfl rfl⟩

/-! ## C3: read/write split -/

/-- shouldUseReplica holds exactly on non-write operations under non-strong
consistency. -/
theorem shouldUseReplica_true_iff (op : OperationType)
    (cl : ConsistencyLevel) :
    shouldUseReplica op cl = true ↔ (op ≠ .write ∧ cl ≠ .strong) := by
  cases op <;> cases cl <;> simp [shouldUseReplica]

/-- C3: for every getConnection call that returns a connection, the pool is a
replica pool if and only if the operation is not write, the consistency level
is not strong, and the resolved cluster's replica list is non-empty (the
index chosen by the load balancer); in every other case the connection comes
from the primary pool. -/
theorem getConnection_replica_iff (st : ManagerState) (opts : QueryOptions)
    (o : ConnOutcome) (h : getConnection st opts = .ok o) :
    ∃ cl, st.clusters.lookup o.clusterId = some cl ∧
      ((∃ i, o.pool = PoolChoice.replicaPool i) ↔
        (opts.operation ≠ .write ∧ opts.consistencyLevel ≠ .strong ∧
          0 < cl.replicaCount)) ∧
      ((opts.operation = .write ∨ opts.consistencyLevel = .strong ∨
          cl.replicaCount = 0) → o.pool = PoolChoice.primaryPool) := by
  unfold getConnection at h
  by_cases hI : st.isInitialized = true
  swap
  · rw [if_neg hI] at h
    exact Except.noConfusion h
  rw [if_pos hI] at h
  cases hr : resolveTarget st opts with
  | error e =>
    simp only [hr] at h
    exact Except.noConfusion h
  | ok cid =>
    simp only [hr] at h
    cases hl : st.clusters.lookup cid with
    | none =>
      simp only [hl] at h
      exact Except.noConfusion h
    | some cl =>
      simp only [hl] at h
      cases hsp : selectPool cl cid opts st.lbCursor with
      | error e =>
        simp only [hsp] at h
        exact Except.noConfusion h
      | ok pr =>
        simp only [hsp] at h
        injection h with hout
        subst hout
        refine ⟨cl, hl, ?_, ?_⟩ <;> unfold selectPool at hsp
        · by_cases hC : shouldUseReplica opts.operation
              opts.consistencyLevel = true ∧ 0 < cl.replicaCount
          · rw [if_pos hC] at hsp
            cases hsel : selectReplica cl.replicaCount st.lbCursor with
            | error e => rw [hsel] at hsp; exact Except.noConfusion hsp
            | ok p =>
              rw [hsel] at hsp
              injection hsp with hpr
              subst hpr
              constructor
              · intro _
                obtain ⟨hw, hst⟩ := (shouldUseReplica_true_iff _ _).mp hC.1
                exact ⟨hw, hst, hC.2⟩
              · intro _
                exact ⟨p.1, rfl⟩
          · rw [if_neg hC] at hsp
            by_cases hp : cl.hasPrimary = true
            · rw [if_pos hp] at hsp
              injection hsp with hpr
              subst hpr
              constructor
              · rintro ⟨i, hi⟩
                cases hi
              · rintro ⟨hw, hst, hrc⟩
                exact absurd
                  ⟨(shouldUseReplica_true_iff _ _).mpr ⟨hw, hst⟩, hrc⟩ hC
            · rw [if_neg hp] at hsp
              exact Except.noConfusion hsp
        · intro hor
          by_cases hC : shouldUseReplica opts.operation
              opts.consistencyLevel = true ∧ 0 < cl.replicaCount
          · exfalso
            obtain ⟨hw, hst⟩ := (shouldUseReplica_true_iff _ _).mp hC.1
            rcases hor with h1 | h1 | h1
            · exact hw h1
            · exact hst h1
            · omega
          · rw [if_neg hC] at hsp
            by_cases hp : cl.hasPrimary = true
            · rw [if_pos hp] at hsp
              injection hsp with hpr
              rw [← hpr]
            · rw [if_neg hp] at hsp
              exact Except.noConfusion hsp

/-- Witness for C3: an eventual-consistency read on a cluster with two
replicas comes from a replica pool chosen by the load balancer. -/
theorem getConnection_replica_iff_witness :
    ∃ cl,
      List.lookup "c1"
        ([("c1", { hasPrimary := true, replicaCount := 2,
                   status := ClusterStatus.active })] :
          List (String × ClusterInfo)) = some cl ∧
      ((∃ i, PoolChoice.replicaPool 0 = PoolChoice.replicaPool i) ↔
        (OperationType.read ≠ .write ∧
          ConsistencyLevel.eventual ≠ .strong ∧ 0 < cl.replicaCount)) ∧
      ((OperationType.read = .write ∨ ConsistencyLevel.eventual = .strong ∨
          cl.replicaCount = 0) →
        PoolChoice.replicaPool 0 = PoolChoice.primaryPool) :=
  getConnection_replica_iff
    { isInitialized := true,
      clusters := [("c1", { hasPrimary := true, replicaCount := 2,
                            status := .active })],
      schemaClusterMap := [], lbCursor := 0 }
    { clusterId := some "c1" }
    { clusterId := "c1", pool := .replicaPool 0, lbCursor := 1 }
    rfl

end PgMultiverse
